import Mathlib

/-!
# kibanaSpacesFeatures: the reconciliation pass of `main.go`

A shallow embedding of `src/main.go` (types `Space`, `SpaceChange`, functions
`stringInSlice`, `updateSpace`, `main`) together with the parts of its two
library calls that decide the behaviour of the program on lists of strings:

* `diff.Diff` of `github.com/r3labs/diff/v2` (file `diff_slice.go`,
  `diff_string.go`, `diff_comparative.go`, `changelog` in `diff.go`), with the
  default options that `diff.Diff(a, b)` selects, restricted to the operand
  type `[]string` that `updateSpace` passes;
* `json.Marshal` of `encoding/json` on the struct `Space`, represented by the
  ordered members of the object it writes.

The network (`http.Get`, `client.Do`), the URL parser behind
`http.NewRequest`, reading a body and `json.Unmarshal` are parameters of the
model (`World`).  Go slices of strings
are lists; a nil slice and an empty slice are both the empty list (the program
only takes their length, ranges over them and marshals them with `omitempty`,
none of which distinguishes the two).
-/

namespace diff

/-- Change type written by the library for an added value. -/
def CREATE : String := "create"

/-- Change type written by the library for a changed value. -/
def UPDATE : String := "update"

/-- Change type written by the library for a removed value. -/
def DELETE : String := "delete"

/-- Type `Change` of the library.  `From` and `To` are `interface{}` values;
on string slices each is either nil (`none`) or a string. The field `Type` of
the library is called `Typ` here. -/
structure Change where
  Typ : String
  Path : List String
  From : Option String
  To : Option String
deriving DecidableEq, Repr

/-- Type `Changelog` of the library: a slice of changes. -/
abbrev Changelog := List Change

/-- Method `Changelog.Add`: appends one change. -/
def Changelog.Add (cl : Changelog) (t : String) (path : List String)
    (frm tgt : Option String) : Changelog :=
  cl ++ [{ Typ := t, Path := path, From := frm, To := tgt }]

/-- Options of a `Differ` that are read while diffing string slices.
`NewDiffer()` without options leaves `SliceOrdering` false. -/
structure Differ where
  SliceOrdering : Bool := false
deriving DecidableEq, Repr

/-- Function `diffString`.  An operand is a `reflect.Value` of kind String
(`some s`) or of kind Invalid (`none`). -/
def diffString (cl : Changelog) (path : List String) (a b : Option String) : Changelog :=
  match a, b with
  | none, _ => cl.Add CREATE path none b
  | some x, none => cl.Add DELETE path (some x) none
  | some x, some y => if x ≠ y then cl.Add UPDATE path (some x) (some y) else cl

/-- Method `Differ.diff` on operands of kind String or Invalid.  With both
operands Invalid `getDiffType` selects `diffStruct`, which returns
`ErrTypeMismatch` without adding a change; otherwise it selects `diffString`. -/
def diffValue (cl : Changelog) (path : List String) (a b : Option String) : Changelog :=
  match a, b with
  | none, none => cl
  | _, _ => diffString cl path a b

/-- Loop of `sliceTracker.has`: the first element of `s` that is not yet
matched and equals `v` (a fresh differ finds no change between them) is marked
and reported. -/
def sliceTracker.scan (v : String) : List Bool → List String → List Bool × Bool
  | m :: st, x :: s =>
    if m then
      let r := sliceTracker.scan v st s
      (m :: r.1, r.2)
    else if (diffValue [] [] (some x) (some v)).length == 0 then
      (true :: st, true)
    else
      let r := sliceTracker.scan v st s
      (false :: r.1, r.2)
  | st, _ => (st, false)

/-- Method `sliceTracker.has`: the tracker is (re)allocated when its length is
not the length of `s`, then scanned.  Returns the tracker and the answer. -/
def sliceTracker.has (st : List Bool) (s : List String) (v : String) : List Bool × Bool :=
  let st1 := if st.length ≠ s.length then List.replicate s.length false else st
  sliceTracker.scan v st1 s

/-- Function `hasAtSameIndex`. -/
def hasAtSameIndex (s : List String) (v : String) (atIndex : Nat) : Bool :=
  match s.get? atIndex with
  | some x => x == v
  | none => false

/-- Type `Comparative`: the two sides recorded for one key. -/
structure Comparative where
  A : Option String
  B : Option String
deriving DecidableEq, Repr

/-- Type `ComparativeList`: the map `m` and the slice `keys` of the library,
kept as one association list in the order of `keys` (the library adds a key to
`keys` exactly when it adds it to `m`). -/
abbrev ComparativeList := List (Nat × Comparative)

/-- Method `ComparativeList.addA`. -/
def ComparativeList.addA (cl : ComparativeList) (k : Nat) (v : String) : ComparativeList :=
  if cl.any (fun e => e.1 == k) then
    cl.map (fun e => if e.1 == k then (e.1, { e.2 with A := some v }) else e)
  else
    cl ++ [(k, { A := some v, B := none })]

/-- Method `ComparativeList.addB`. -/
def ComparativeList.addB (cl : ComparativeList) (k : Nat) (v : String) : ComparativeList :=
  if cl.any (fun e => e.1 == k) then
    cl.map (fun e => if e.1 == k then (e.1, { e.2 with B := some v }) else e)
  else
    cl ++ [(k, { A := none, B := some v })]

/-- First loop of `diffSliceGeneric`: `rest` is `a` from index `i` on. -/
def loopA (d : Differ) (b : List String) :
    List String → Nat → List Bool → ComparativeList → ComparativeList
  | [], _, _, missing => missing
  | ae :: rest, i, slice, missing =>
    if d.SliceOrdering then
      if !hasAtSameIndex b ae i then loopA d b rest (i + 1) slice (missing.addA i ae)
      else loopA d b rest (i + 1) slice missing
    else
      let r := sliceTracker.has slice b ae
      if !r.2 then loopA d b rest (i + 1) r.1 (missing.addA i ae)
      else loopA d b rest (i + 1) r.1 missing

/-- Second loop of `diffSliceGeneric`: `rest` is `b` from index `i` on. -/
def loopB (d : Differ) (a : List String) :
    List String → Nat → List Bool → ComparativeList → ComparativeList
  | [], _, _, missing => missing
  | be :: rest, i, slice, missing =>
    if d.SliceOrdering then
      if !hasAtSameIndex a be i then loopB d a rest (i + 1) slice (missing.addB i be)
      else loopB d a rest (i + 1) slice missing
    else
      let r := sliceTracker.has slice a be
      if !r.2 then loopB d a rest (i + 1) r.1 (missing.addB i be)
      else loopB d a rest (i + 1) r.1 missing

/-- Function `idstring` on an integer key. -/
def idstring (k : Nat) : String := toString k

/-- Method `diffComparative`: one call of `diff` per key, in key order. -/
def diffComparative (cl : Changelog) (path : List String) : ComparativeList → Changelog
  | [] => cl
  | (k, c) :: rest => diffComparative (diffValue cl (path ++ [idstring k]) c.A c.B) path rest

/-- Method `diffSliceGeneric`. -/
def diffSliceGeneric (d : Differ) (cl : Changelog) (path : List String)
    (a b : List String) : Changelog :=
  let missing := loopA d b a 0 [] []
  let missing := loopB d a b 0 [] missing
  if missing.length == 0 then cl else diffComparative cl path missing

/-- Method `diffSlice` on two string slices: both operands are valid slices and
their elements are not structs, so `comparative` is false and the generic
comparison runs. -/
def diffSlice (d : Differ) (cl : Changelog) (path : List String)
    (a b : List String) : Changelog :=
  diffSliceGeneric d cl path a b

/-- Function `Diff` with no option, on two string slices: a new differ, an
empty changelog and an empty path. -/
def Diff (a b : List String) : Changelog :=
  diffSlice {} [] [] a b

end diff

namespace Kibana

/-! ## Types of `main.go` -/

/-- Type `Space` (lines 27-35). -/
structure Space where
  ID : String
  Name : String
  Description : String
  Color : String
  Initials : String
  DisabledFeatures : List String
  ImageURL : String
deriving DecidableEq, Repr

/-- Type `SpaceChange` (lines 38-41). -/
structure SpaceChange where
  Space : Space
  Changelog : diff.Changelog
deriving DecidableEq, Repr

/-- The package-level variables `kibanaAddress`, `disabledFeatures` and
`excludedSpaces` (lines 21-23) as `initParams` leaves them. -/
structure Globals where
  kibanaAddress : String
  disabledFeatures : List String
  excludedSpaces : List String
deriving DecidableEq, Repr

/-! ## `encoding/json` on a `Space` -/

/-- A value written for a field of `Space`: a string or a list of strings. -/
inductive JSONValue where
  | str (s : String)
  | strs (l : List String)
deriving DecidableEq, Repr

/-- The object written by `json.Marshal`: its members in the order written. -/
abbrev JSONObject := List (String × JSONValue)

/-- A string field tagged `omitempty` is written unless its length is zero. -/
def omitemptyString (key : String) (s : String) : JSONObject :=
  if s.length = 0 then [] else [(key, JSONValue.str s)]

/-- A slice field tagged `omitempty` is written unless its length is zero. -/
def omitemptySlice (key : String) (l : List String) : JSONObject :=
  if l.length = 0 then [] else [(key, JSONValue.strs l)]

/-- Function `json.Marshal` on a `Space`, by the struct tags of lines 28-34. -/
def Marshal (space : Space) : JSONObject :=
  [("id", JSONValue.str space.ID), ("name", JSONValue.str space.Name)]
    ++ omitemptyString "description" space.Description
    ++ omitemptyString "color" space.Color
    ++ omitemptyString "initials" space.Initials
    ++ omitemptySlice "disabledFeatures" space.DisabledFeatures
    ++ omitemptyString "imageUrl" space.ImageURL

/-- Whether an object has a member with the given key. -/
def JSONObject.hasKey (o : JSONObject) (key : String) : Bool :=
  o.any (fun m => m.1 == key)

/-- The list that decoding the object into a `Space` stores in
`DisabledFeatures`: the value of the member `disabledFeatures`, and the zero
value (no element) when the object has no such member. -/
def JSONObject.disabledFeatures : JSONObject → List String
  | [] => []
  | (k, v) :: rest =>
    if k == "disabledFeatures" then
      match v with
      | JSONValue.strs l => l
      | JSONValue.str _ => JSONObject.disabledFeatures rest
    else JSONObject.disabledFeatures rest

/-! ## `net/http` -/

/-- Function `validHeaderFieldByte` of `net/textproto`: the token characters. -/
def validHeaderFieldByte (c : Char) : Bool :=
  c.isAlphanum || "!#$%&'*+-.^_`|~".toList.contains c

/-- The canonicalising loop of `canonicalMIMEHeaderKey`: upper case at the
start and after a dash, lower case elsewhere. -/
def canonicalLoop : Bool → List Char → List Char
  | _, [] => []
  | upper, c :: rest =>
    let c1 := if upper && c.isLower then c.toUpper
              else if !upper && c.isUpper then c.toLower else c
    c1 :: canonicalLoop (c1 == '-') rest

/-- Function `textproto.CanonicalMIMEHeaderKey`: a key with a character that is
neither a token character nor a space, or with a space, is returned unchanged. -/
def CanonicalMIMEHeaderKey (s : String) : String :=
  if s.toList.all validHeaderFieldByte then String.mk (canonicalLoop true s.toList) else s

/-- Type `http.Header`: canonical key and value (every key of this program
holds one value). -/
abbrev Header := List (String × String)

/-- Method `Header.Set`: replaces the value stored under the canonical key. -/
def Header.Set (h : Header) (key value : String) : Header :=
  let k := CanonicalMIMEHeaderKey key
  if h.any (fun e => e.1 == k) then h.map (fun e => if e.1 == k then (k, value) else e)
  else h ++ [(k, value)]

/-- Method `Header.Get`: the value stored under the canonical key, or "". -/
def Header.Get (h : Header) (key : String) : String :=
  match h.find? (fun e => e.1 == CanonicalMIMEHeaderKey key) with
  | some e => e.2
  | none => ""

/-- Type `http.Request`, the fields this program sets.  `URL` is the parsed
URL of the request. -/
structure Request where
  Method : String
  URL : String
  Header : Header
  Body : JSONObject
deriving DecidableEq, Repr

/-- Type `http.Response`, as far as this program can read it: the status and
the result of `ioutil.ReadAll` on the body (`none`: the read returns an
error). -/
structure Response where
  StatusCode : Nat
  Body : Option String
deriving DecidableEq, Repr

/-- Attributes of `github.com/fatih/color` used by `main`. -/
inductive Attribute where
  | FgGreen
  | FgMagenta
deriving DecidableEq, Repr

/-- What the program cannot decide by itself: the server, the URL parser of
`http.NewRequest`, the decoder, and the escape sequences of the terminal.
`none` is a returned error.  `ParseURL s` is the URL that `url.Parse` makes of
the string `s` (the target the request is sent to, which need not read like
`s`: the parser escapes some characters and the fragment is not sent). -/
structure World where
  Get : String → Option Response
  Do : Request → Option Response
  ParseURL : String → Option String
  Unmarshal : String → Option (List Space)
  ColorSet : Attribute → String
  ColorUnset : Attribute → String

/-- Function `http.NewRequest` with a valid method: the string is parsed, the
call fails exactly when the parser does, and the request holds the parsed URL;
a new request has no header. -/
def NewRequest (w : World) (method url : String) (body : JSONObject) : Option Request :=
  match w.ParseURL url with
  | some u => some { Method := method, URL := u, Header := [], Body := body }
  | none => none

/-! ## Functions of `main.go` -/

/-- Function `stringInSlice` (lines 43-50). -/
def stringInSlice (a : String) : List String → Bool
  | [] => false
  | b :: list => if b == a then true else stringInSlice a list

/-- What a run of a piece of the program does: the reconciliation units
started (one `go updateSpace` each, with its space), the requests handed to
`client.Do`, the values sent on `spacesChannel`, and whether `panic` or
`log.Fatal` ended the process. -/
structure Effects where
  started : List Space
  writes : List Request
  sent : List SpaceChange
  fatal : Bool
deriving DecidableEq, Repr

/-- Sequencing of two pieces: the second runs unless the first ended the
process. -/
def Effects.andThen (e : Effects) (f : Effects) : Effects :=
  if e.fatal then e
  else { started := e.started ++ f.started, writes := e.writes ++ f.writes,
         sent := e.sent ++ f.sent, fatal := f.fatal }

/-- Function `updateSpace` (lines 52-96).  `json.Marshal` returns no error on a
`Space`.  The response of `client.Do` is closed and never read. -/
def updateSpace (g : Globals) (w : World) (kibanaAddress : String) (space : Space) : Effects :=
  let changelog := diff.Diff g.disabledFeatures space.DisabledFeatures
  let spaceChange : SpaceChange := { Space := space, Changelog := changelog }
  if changelog.length > 0 then
    let space1 : Space := { space with DisabledFeatures := g.disabledFeatures }
    let requestBody := Marshal space1
    match NewRequest w "PUT" (kibanaAddress ++ "/api/spaces/space/" ++ space1.ID) requestBody with
    | none => { started := [space], writes := [], sent := [], fatal := true }
    | some req =>
      let req1 := { req with Header := req.Header.Set "Content-Type" "application/json" }
      let req2 := { req1 with Header := req1.Header.Set "kbn-xsrf" "spaces updater" }
      match w.Do req2 with
      | none => { started := [space], writes := [req2], sent := [], fatal := true }
      | some _ => { started := [space], writes := [req2], sent := [spaceChange], fatal := false }
  else
    { started := [space], writes := [], sent := [spaceChange], fatal := false }

/-- The loop of lines 151-157 over the fetched spaces, the units taken in the
order they are started.  Once a unit has ended the process nothing more is
recorded; in the program, units that run beside it may still have handed their
request to the client by then, so runs with a failing request are stated on
`updateSpace` alone. -/
def spawn (g : Globals) (w : World) : List Space → Effects
  | [] => { started := [], writes := [], sent := [], fatal := false }
  | space :: rest =>
    if !stringInSlice space.ID g.excludedSpaces then
      (updateSpace g w g.kibanaAddress space).andThen (spawn g w rest)
    else spawn g w rest

/-- Function `main` from line 129 to line 162: the directory read, then the
units. -/
def main (g : Globals) (w : World) : Effects :=
  match w.Get (g.kibanaAddress ++ "/api/spaces/space") with
  | none => { started := [], writes := [], sent := [], fatal := true }
  | some resp =>
    match resp.Body with
    | none => { started := [], writes := [], sent := [], fatal := true }
    | some body =>
      match w.Unmarshal body with
      | none => { started := [], writes := [], sent := [], fatal := true }
      | some spaces => spawn g w spaces

/-- The outcomes the loop of line 164 may receive, in an order of arrival: the
values sent by the units, in any order. -/
def Received (g : Globals) (w : World) (outs : List SpaceChange) : Prop :=
  outs.Perm (main g w).sent

/-- Verb `%s` of `fmt` on an `interface{}` operand that is nil or a string. -/
def formatS : Option String → String
  | some s => s
  | none => "%!s(<nil>)"

/-- The loop of lines 170-172, from the text accumulated so far. -/
def changesLoop (changes : String) : diff.Changelog → String
  | [] => changes
  | change :: rest =>
    changesLoop (changes ++ ("[" ++ formatS change.From ++ " -> " ++ change.Typ ++ "] ")) rest

/-- Function `colorPrint` of `fatih/color` once the text is formatted: a
newline is added to a format that does not end in one, and the text is written
between the escape sequences of the attribute. -/
def colorPrint (w : World) (p : Attribute) (text : String) : String :=
  w.ColorSet p ++ text ++ w.ColorUnset p

/-- The body of the loop of lines 164-175: what is written to standard output
for one received value. -/
def report (w : World) (space : SpaceChange) : String :=
  (space.Space.ID ++ " ") ++
    (if space.Changelog.length == 0 then colorPrint w Attribute.FgGreen "✓\n"
     else colorPrint w Attribute.FgMagenta
            ("changes: " ++ changesLoop "" space.Changelog ++ "\n"))

end Kibana

/-! ## Definitions used to state the proofs -/

namespace diff

/-- The changes that one key of a comparative list contributes. -/
def keyChanges (path : List String) (e : Nat × Comparative) : Changelog :=
  diffValue [] (path ++ [idstring e.1]) e.2.A e.2.B

/-- The elements of `s` that a tracker has not matched yet. -/
def unmatched : List Bool → List String → List String
  | m :: st, x :: s => if m then unmatched st s else x :: unmatched st s
  | _, _ => []

/-- The tracker that `sliceTracker.has` scans. -/
def tracker (st : List Bool) (s : List String) : List Bool :=
  if st.length ≠ s.length then List.replicate s.length false else st

/-- The elements of `rest` (with their index, from `i` on) that find no
partner among the unmatched elements `rem`; a partner found is used up. -/
def unmatchedIdx : List String → List String → Nat → List (Nat × String)
  | _, [], _ => []
  | rem, x :: rest, i =>
    if x ∈ rem then unmatchedIdx (rem.erase x) rest (i + 1)
    else (i, x) :: unmatchedIdx rem rest (i + 1)

/-- Every entry of a comparative list comes from the two lists of unmatched
elements, and records at least one side. -/
def Sound (MA MB : List (Nat × String)) (m : ComparativeList) : Prop :=
  ∀ k c, (k, c) ∈ m →
    (∀ x, c.A = some x → (k, x) ∈ MA) ∧ (∀ y, c.B = some y → (k, y) ∈ MB)
      ∧ (c.A ≠ none ∨ c.B ≠ none)

/-- The comparative list that `diffSliceGeneric` builds for `a` and `b`. -/
def missingOf (a b : List String) : ComparativeList :=
  loopB {} a b 0 [] (loopA {} b a 0 [] [])

end diff

namespace Kibana

/-- A parser for the examples: like `url.Parse` it rejects a string that holds
an ASCII control character; the strings of the examples that it accepts are
plain URLs, which `url.Parse` returns as written. -/
def demoParse (s : String) : Option String :=
  if s.toList.any (fun c => decide (c.toNat < 32) || c.toNat == 127) then none else some s

/-- A server that answers every request with status 200 and the directory
`[a, b]` of the end-to-end scenario of the specification; no colour. -/
def demoWorld : World :=
  { Get := fun _ => some { StatusCode := 200, Body := some "directory" }
    Do := fun _ => some { StatusCode := 200, Body := some "" }
    ParseURL := demoParse
    Unmarshal := fun _ =>
      some [{ ID := "a", Name := "A", Description := "", Color := "", Initials := "",
              DisabledFeatures := ["x"], ImageURL := "" },
            { ID := "b", Name := "B", Description := "", Color := "", Initials := "",
              DisabledFeatures := ["y", "z"], ImageURL := "" }]
    ColorSet := fun _ => ""
    ColorUnset := fun _ => "" }

/-- A server whose directory read returns an error. -/
def downWorld : World :=
  { demoWorld with Get := fun _ => none }

/-- A space with identifier "a" and the given disabled features. -/
def demoSpace (features : List String) : Space :=
  { ID := "a", Name := "A", Description := "", Color := "", Initials := "",
    DisabledFeatures := features, ImageURL := "" }

/-- Globals with address "http://k", the given desired list and exclusions. -/
def demoGlobals (desired excluded : List String) : Globals :=
  { kibanaAddress := "http://k", disabledFeatures := desired, excludedSpaces := excluded }

/-- The request that `updateSpace` hands to `client.Do` for a space (lines
64-77), given the URL `u` that `http.NewRequest` parsed. -/
def putRequest (g : Globals) (u : String) (space : Space) : Request :=
  { Method := "PUT"
    URL := u
    Header := (Header.Set (Header.Set [] "Content-Type" "application/json")
      "kbn-xsrf" "spaces updater")
    Body := Marshal { space with DisabledFeatures := g.disabledFeatures } }

end Kibana

/-! ## Theorems -/

namespace diff

/-! ## The changelog of two string lists -/

theorem diffValue_append (cl : Changelog) (path : List String) (a b : Option String) :
    diffValue cl path a b = cl ++ diffValue [] path a b := by
  cases a <;> cases b <;> simp [diffValue, diffString, Changelog.Add]
  split <;> simp

theorem diffComparative_eq (cl : Changelog) (path : List String) (m : ComparativeList) :
    diffComparative cl path m = cl ++ (m.map (keyChanges path)).flatten := by
  induction m generalizing cl with
  | nil => simp [diffComparative]
  | cons e rest ih =>
    obtain ⟨k, c⟩ := e
    rw [diffComparative, ih, diffValue_append]
    simp [keyChanges, List.append_assoc]

theorem diffValue_some_some (x v : String) :
    ((diffValue [] [] (some x) (some v)).length == 0) = decide (x = v) := by
  by_cases h : x = v <;> simp [diffValue, diffString, Changelog.Add, h]

theorem unmatched_replicate (s : List String) :
    unmatched (List.replicate s.length false) s = s := by
  induction s with
  | nil => rfl
  | cons x s ih => simp [List.replicate, unmatched, ih]

theorem scan_spec (v : String) (st : List Bool) (s : List String) :
    (sliceTracker.scan v st s).2 = decide (v ∈ unmatched st s)
      ∧ unmatched (sliceTracker.scan v st s).1 s = (unmatched st s).erase v
      ∧ (sliceTracker.scan v st s).1.length = st.length := by
  induction st generalizing s with
  | nil => simp [sliceTracker.scan, unmatched]
  | cons m st ih =>
    cases s with
    | nil => simp [sliceTracker.scan, unmatched]
    | cons x s =>
      obtain ⟨h1, h2, h3⟩ := ih s
      cases m with
      | true => simp [sliceTracker.scan, unmatched, h1, h2, h3]
      | false =>
        by_cases hx : x = v
        · subst hx
          simp [sliceTracker.scan, unmatched, diffValue_some_some]
        · have hv : ¬ v = x := fun h => hx h.symm
          simp [sliceTracker.scan, unmatched, diffValue_some_some, hx, hv, h1, h2, h3,
            List.erase_cons_tail]

theorem tracker_length (st : List Bool) (s : List String) :
    (tracker st s).length = s.length := by
  unfold tracker
  split
  · simp
  · rename_i h
    simpa using h

theorem tracker_of_length {st : List Bool} {s : List String} (h : st.length = s.length) :
    tracker st s = st := by
  simp [tracker, h]

theorem tracker_nil (s : List String) : unmatched (tracker [] s) s = s := by
  cases s with
  | nil => rfl
  | cons x s =>
    have : tracker [] (x :: s) = List.replicate (x :: s).length false := by
      simp [tracker]
    rw [this, unmatched_replicate]

theorem has_spec (v : String) (st : List Bool) (s : List String) :
    (sliceTracker.has st s v).2 = decide (v ∈ unmatched (tracker st s) s)
      ∧ unmatched (tracker (sliceTracker.has st s v).1 s) s
          = (unmatched (tracker st s) s).erase v := by
  have h := scan_spec v (tracker st s) s
  have hl : (sliceTracker.has st s v).1.length = s.length := by
    show (sliceTracker.scan v (tracker st s) s).1.length = s.length
    rw [h.2.2, tracker_length]
  refine ⟨h.1, ?_⟩
  rw [tracker_of_length hl]
  exact h.2.1

theorem loopA_eq (b : List String) (a : List String) (i : Nat) (st : List Bool)
    (missing : ComparativeList) :
    loopA {} b a i st missing
      = (unmatchedIdx (unmatched (tracker st b) b) a i).foldl
          (fun m e => ComparativeList.addA m e.1 e.2) missing := by
  induction a generalizing i st missing with
  | nil => simp [loopA, unmatchedIdx]
  | cons x rest ih =>
    obtain ⟨h1, h2⟩ := has_spec x st b
    by_cases hx : x ∈ unmatched (tracker st b) b
    · simp [loopA, unmatchedIdx, hx, h1, ih, h2]
    · simp [loopA, unmatchedIdx, hx, h1, ih, h2, List.erase_of_not_mem hx]

theorem loopB_eq (a : List String) (b : List String) (i : Nat) (st : List Bool)
    (missing : ComparativeList) :
    loopB {} a b i st missing
      = (unmatchedIdx (unmatched (tracker st a) a) b i).foldl
          (fun m e => ComparativeList.addB m e.1 e.2) missing := by
  induction b generalizing i st missing with
  | nil => simp [loopB, unmatchedIdx]
  | cons x rest ih =>
    obtain ⟨h1, h2⟩ := has_spec x st a
    by_cases hx : x ∈ unmatched (tracker st a) a
    · simp [loopB, unmatchedIdx, hx, h1, ih, h2]
    · simp [loopB, unmatchedIdx, hx, h1, ih, h2, List.erase_of_not_mem hx]

theorem count_le_of_unmatchedIdx_nil (rem a : List String) (i : Nat)
    (h : unmatchedIdx rem a i = []) (y : String) : a.count y ≤ rem.count y := by
  induction a generalizing rem i with
  | nil => simp
  | cons x rest ih =>
    by_cases hx : x ∈ rem
    · simp only [unmatchedIdx, hx, if_true] at h
      have h1 := ih (rem.erase x) (i + 1) h
      by_cases hy : y = x
      · subst hy
        have hpos : 0 < rem.count y := List.count_pos_iff.2 hx
        rw [List.count_erase_self] at h1
        rw [List.count_cons_self]
        omega
      · rw [List.count_erase_of_ne hy] at h1
        rw [List.count_cons_of_ne hy]
        exact h1
    · simp [unmatchedIdx, hx] at h

theorem count_lt_of_mem_unmatchedIdx (rem a : List String) (i k : Nat) (y : String)
    (h : (k, y) ∈ unmatchedIdx rem a i) : rem.count y < a.count y := by
  induction a generalizing rem i with
  | nil => simp [unmatchedIdx] at h
  | cons x rest ih =>
    by_cases hx : x ∈ rem
    · simp only [unmatchedIdx, hx, if_true] at h
      have h1 := ih (rem.erase x) (i + 1) h
      by_cases hy : y = x
      · subst hy
        have hpos : 0 < rem.count y := List.count_pos_iff.2 hx
        rw [List.count_erase_self] at h1
        rw [List.count_cons_self]
        omega
      · rw [List.count_erase_of_ne hy] at h1
        rw [List.count_cons_of_ne hy]
        exact h1
    · simp only [unmatchedIdx, hx, if_false, List.mem_cons, Prod.mk.injEq] at h
      rcases h with ⟨_, hy⟩ | h
      · subst hy
        rw [List.count_eq_zero_of_not_mem hx, List.count_cons_self]
        omega
      · have h1 := ih rem (i + 1) h
        have h2 : rest.count y ≤ (x :: rest).count y := by
          rw [List.count_cons]
          omega
        omega

theorem mem_unmatchedIdx (rem a : List String) (i k : Nat) (y : String)
    (h : (k, y) ∈ unmatchedIdx rem a i) : i ≤ k ∧ y ∈ a := by
  induction a generalizing rem i with
  | nil => simp [unmatchedIdx] at h
  | cons x rest ih =>
    by_cases hx : x ∈ rem
    · simp only [unmatchedIdx, hx, if_true] at h
      have h1 := ih (rem.erase x) (i + 1) h
      exact ⟨by omega, List.mem_cons_of_mem _ h1.2⟩
    · simp only [unmatchedIdx, hx, if_false, List.mem_cons, Prod.mk.injEq] at h
      rcases h with ⟨hk, hy⟩ | h
      · exact ⟨by omega, by simp [hy]⟩
      · have h1 := ih rem (i + 1) h
        exact ⟨by omega, List.mem_cons_of_mem _ h1.2⟩

theorem nodup_keys_unmatchedIdx (rem a : List String) (i : Nat) :
    ((unmatchedIdx rem a i).map Prod.fst).Nodup := by
  induction a generalizing rem i with
  | nil => simp [unmatchedIdx]
  | cons x rest ih =>
    by_cases hx : x ∈ rem
    · simp only [unmatchedIdx, hx, if_true]
      exact ih _ _
    · simp only [unmatchedIdx, hx, if_false, List.map_cons, List.nodup_cons]
      refine ⟨?_, ih _ _⟩
      intro hmem
      obtain ⟨e, he, hk⟩ := List.mem_map.1 hmem
      obtain ⟨k, y⟩ := e
      have := (mem_unmatchedIdx rem rest (i + 1) k y he).1
      simp at hk
      omega

theorem exists_mem_unmatchedIdx (rem a : List String) (i : Nat) (y : String)
    (ha : y ∈ a) (hr : y ∉ rem) : ∃ k, (k, y) ∈ unmatchedIdx rem a i := by
  induction a generalizing rem i with
  | nil => simp at ha
  | cons x rest ih =>
    by_cases hx : x ∈ rem
    · have hne : y ≠ x := fun h => hr (h ▸ hx)
      have ha1 : y ∈ rest := by
        rcases List.mem_cons.1 ha with h | h
        · exact absurd h hne
        · exact h
      have hr1 : y ∉ rem.erase x := fun h => hr (List.mem_of_mem_erase h)
      obtain ⟨k, hk⟩ := ih (rem.erase x) (i + 1) ha1 hr1
      exact ⟨k, by simp only [unmatchedIdx, hx, if_true]; exact hk⟩
    · rcases List.mem_cons.1 ha with h | h
      · exact ⟨i, by simp [unmatchedIdx, hx, h]⟩
      · obtain ⟨k, hk⟩ := ih rem (i + 1) h hr
        exact ⟨k, by simp only [unmatchedIdx, hx, if_false]; exact List.mem_cons_of_mem _ hk⟩

/-! ### Adding to a comparative list -/

theorem mem_addA {m : ComparativeList} {k k1 : Nat} {v : String} {c : Comparative}
    (h : (k1, c) ∈ m.addA k v) :
    ((k1, c) ∈ m ∧ k1 ≠ k) ∨
      (k1 = k ∧ c.A = some v ∧ (c.B = none ∨ ∃ c0, (k, c0) ∈ m ∧ c0.B = c.B)) := by
  unfold ComparativeList.addA at h
  split at h
  · obtain ⟨e, he, hf⟩ := List.mem_map.1 h
    obtain ⟨k0, c0⟩ := e
    by_cases hk : k0 = k
    · subst hk
      simp at hf
      obtain ⟨h1, h2⟩ := hf
      subst h1
      subst h2
      exact Or.inr ⟨rfl, rfl, Or.inr ⟨c0, he, rfl⟩⟩
    · simp [hk] at hf
      obtain ⟨h1, h2⟩ := hf
      subst h1
      subst h2
      exact Or.inl ⟨he, hk⟩
  · rename_i hany
    rcases List.mem_append.1 h with h | h
    · refine Or.inl ⟨h, ?_⟩
      intro hk
      apply hany
      exact List.any_eq_true.2 ⟨(k1, c), h, by simp [hk]⟩
    · simp at h
      obtain ⟨h1, h2⟩ := h
      subst h1
      subst h2
      exact Or.inr ⟨rfl, rfl, Or.inl rfl⟩

theorem mem_addB {m : ComparativeList} {k k1 : Nat} {v : String} {c : Comparative}
    (h : (k1, c) ∈ m.addB k v) :
    ((k1, c) ∈ m ∧ k1 ≠ k) ∨
      (k1 = k ∧ c.B = some v ∧ (c.A = none ∨ ∃ c0, (k, c0) ∈ m ∧ c0.A = c.A)) := by
  unfold ComparativeList.addB at h
  split at h
  · obtain ⟨e, he, hf⟩ := List.mem_map.1 h
    obtain ⟨k0, c0⟩ := e
    by_cases hk : k0 = k
    · subst hk
      simp at hf
      obtain ⟨h1, h2⟩ := hf
      subst h1
      subst h2
      exact Or.inr ⟨rfl, rfl, Or.inr ⟨c0, he, rfl⟩⟩
    · simp [hk] at hf
      obtain ⟨h1, h2⟩ := hf
      subst h1
      subst h2
      exact Or.inl ⟨he, hk⟩
  · rename_i hany
    rcases List.mem_append.1 h with h | h
    · refine Or.inl ⟨h, ?_⟩
      intro hk
      apply hany
      exact List.any_eq_true.2 ⟨(k1, c), h, by simp [hk]⟩
    · simp at h
      obtain ⟨h1, h2⟩ := h
      subst h1
      subst h2
      exact Or.inr ⟨rfl, rfl, Or.inl rfl⟩

theorem addA_new (m : ComparativeList) (k : Nat) (v : String) :
    ∃ c, (k, c) ∈ m.addA k v ∧ c.A = some v := by
  unfold ComparativeList.addA
  split
  · rename_i hany
    obtain ⟨e, he, hk⟩ := List.any_eq_true.1 hany
    obtain ⟨k0, c0⟩ := e
    simp at hk
    subst hk
    refine ⟨{ c0 with A := some v }, List.mem_map.2 ⟨(k0, c0), he, by simp⟩, rfl⟩
  · exact ⟨{ A := some v, B := none }, by simp, rfl⟩

theorem addB_new (m : ComparativeList) (k : Nat) (v : String) :
    ∃ c, (k, c) ∈ m.addB k v ∧ c.B = some v := by
  unfold ComparativeList.addB
  split
  · rename_i hany
    obtain ⟨e, he, hk⟩ := List.any_eq_true.1 hany
    obtain ⟨k0, c0⟩ := e
    simp at hk
    subst hk
    refine ⟨{ c0 with B := some v }, List.mem_map.2 ⟨(k0, c0), he, by simp⟩, rfl⟩
  · exact ⟨{ A := none, B := some v }, by simp, rfl⟩

theorem addA_keep {m : ComparativeList} {k k1 : Nat} (v : String) {c : Comparative}
    (hk : k1 ≠ k) (h : (k1, c) ∈ m) : (k1, c) ∈ m.addA k v := by
  unfold ComparativeList.addA
  split
  · exact List.mem_map.2 ⟨(k1, c), h, by simp [hk]⟩
  · exact List.mem_append_left _ h

theorem addB_keep {m : ComparativeList} {k k1 : Nat} (v : String) {c : Comparative}
    (hk : k1 ≠ k) (h : (k1, c) ∈ m) : (k1, c) ∈ m.addB k v := by
  unfold ComparativeList.addB
  split
  · exact List.mem_map.2 ⟨(k1, c), h, by simp [hk]⟩
  · exact List.mem_append_left _ h

theorem addB_keepA {m : ComparativeList} (k : Nat) {k1 : Nat} (v : String) {c : Comparative}
    (h : (k1, c) ∈ m) : ∃ c1, (k1, c1) ∈ m.addB k v ∧ c1.A = c.A := by
  by_cases hk : k1 = k
  · subst hk
    unfold ComparativeList.addB
    have hany : (m.any fun e => e.1 == k1) = true :=
      List.any_eq_true.2 ⟨(k1, c), h, by simp⟩
    rw [if_pos hany]
    exact ⟨{ c with B := some v }, List.mem_map.2 ⟨(k1, c), h, by simp⟩, rfl⟩
  · exact ⟨c, addB_keep v hk h, rfl⟩

theorem sound_addA {MA MB : List (Nat × String)} {m : ComparativeList} {k : Nat} {v : String}
    (hm : Sound MA MB m) (hkv : (k, v) ∈ MA) : Sound MA MB (m.addA k v) := by
  intro k1 c hc
  rcases mem_addA hc with ⟨h, _⟩ | ⟨h1, h2, h3⟩
  · exact hm k1 c h
  · subst h1
    refine ⟨?_, ?_, Or.inl (by simp [h2])⟩
    · intro x hx
      rw [h2] at hx
      cases hx
      exact hkv
    · intro y hy
      rcases h3 with h3 | ⟨c0, hc0, hB⟩
      · rw [h3] at hy
        cases hy
      · exact (hm k1 c0 hc0).2.1 y (hB.trans hy)

theorem sound_addB {MA MB : List (Nat × String)} {m : ComparativeList} {k : Nat} {v : String}
    (hm : Sound MA MB m) (hkv : (k, v) ∈ MB) : Sound MA MB (m.addB k v) := by
  intro k1 c hc
  rcases mem_addB hc with ⟨h, _⟩ | ⟨h1, h2, h3⟩
  · exact hm k1 c h
  · subst h1
    refine ⟨?_, ?_, Or.inr (by simp [h2])⟩
    · intro x hx
      rcases h3 with h3 | ⟨c0, hc0, hA⟩
      · rw [h3] at hx
        cases hx
      · exact (hm k1 c0 hc0).1 x (hA.trans hx)
    · intro y hy
      rw [h2] at hy
      cases hy
      exact hkv

theorem sound_foldA {MA MB : List (Nat × String)} (l : List (Nat × String))
    (m : ComparativeList) (hl : ∀ e ∈ l, e ∈ MA) (hm : Sound MA MB m) :
    Sound MA MB (l.foldl (fun m e => ComparativeList.addA m e.1 e.2) m) := by
  induction l generalizing m with
  | nil => exact hm
  | cons e rest ih =>
    simp only [List.foldl_cons]
    apply ih
    · intro e1 he1
      exact hl e1 (List.mem_cons_of_mem _ he1)
    · exact sound_addA hm (hl e (List.mem_cons_self _ _))

theorem sound_foldB {MA MB : List (Nat × String)} (l : List (Nat × String))
    (m : ComparativeList) (hl : ∀ e ∈ l, e ∈ MB) (hm : Sound MA MB m) :
    Sound MA MB (l.foldl (fun m e => ComparativeList.addB m e.1 e.2) m) := by
  induction l generalizing m with
  | nil => exact hm
  | cons e rest ih =>
    simp only [List.foldl_cons]
    apply ih
    · intro e1 he1
      exact hl e1 (List.mem_cons_of_mem _ he1)
    · exact sound_addB hm (hl e (List.mem_cons_self _ _))

theorem keep_foldA (l : List (Nat × String)) (m : ComparativeList) (k : Nat)
    (c : Comparative) (hk : k ∉ l.map Prod.fst) (h : (k, c) ∈ m) :
    (k, c) ∈ l.foldl (fun m e => ComparativeList.addA m e.1 e.2) m := by
  induction l generalizing m with
  | nil => exact h
  | cons e rest ih =>
    simp only [List.foldl_cons]
    simp only [List.map_cons, List.mem_cons, not_or] at hk
    exact ih _ hk.2 (addA_keep e.2 hk.1 h)

theorem keep_foldB (l : List (Nat × String)) (m : ComparativeList) (k : Nat)
    (c : Comparative) (hk : k ∉ l.map Prod.fst) (h : (k, c) ∈ m) :
    (k, c) ∈ l.foldl (fun m e => ComparativeList.addB m e.1 e.2) m := by
  induction l generalizing m with
  | nil => exact h
  | cons e rest ih =>
    simp only [List.foldl_cons]
    simp only [List.map_cons, List.mem_cons, not_or] at hk
    exact ih _ hk.2 (addB_keep e.2 hk.1 h)

theorem complete_foldA (l : List (Nat × String)) (m : ComparativeList) (k : Nat)
    (x : String) (hnd : (l.map Prod.fst).Nodup) (h : (k, x) ∈ l) :
    ∃ c, (k, c) ∈ l.foldl (fun m e => ComparativeList.addA m e.1 e.2) m ∧ c.A = some x := by
  induction l generalizing m with
  | nil => simp at h
  | cons e rest ih =>
    simp only [List.map_cons, List.nodup_cons] at hnd
    simp only [List.foldl_cons]
    rcases List.mem_cons.1 h with h | h
    · subst h
      obtain ⟨c, hc, hA⟩ := addA_new m k x
      exact ⟨c, keep_foldA rest _ k c hnd.1 hc, hA⟩
    · exact ih _ hnd.2 h

theorem complete_foldB (l : List (Nat × String)) (m : ComparativeList) (k : Nat)
    (y : String) (hnd : (l.map Prod.fst).Nodup) (h : (k, y) ∈ l) :
    ∃ c, (k, c) ∈ l.foldl (fun m e => ComparativeList.addB m e.1 e.2) m ∧ c.B = some y := by
  induction l generalizing m with
  | nil => simp at h
  | cons e rest ih =>
    simp only [List.map_cons, List.nodup_cons] at hnd
    simp only [List.foldl_cons]
    rcases List.mem_cons.1 h with h | h
    · subst h
      obtain ⟨c, hc, hB⟩ := addB_new m k y
      exact ⟨c, keep_foldB rest _ k c hnd.1 hc, hB⟩
    · exact ih _ hnd.2 h

theorem keepA_foldB (l : List (Nat × String)) (m : ComparativeList) (k : Nat)
    (c : Comparative) (h : (k, c) ∈ m) :
    ∃ c1, (k, c1) ∈ l.foldl (fun m e => ComparativeList.addB m e.1 e.2) m ∧ c1.A = c.A := by
  induction l generalizing m c with
  | nil => exact ⟨c, h, rfl⟩
  | cons e rest ih =>
    simp only [List.foldl_cons]
    obtain ⟨c1, hc1, hA⟩ := addB_keepA e.1 e.2 h
    obtain ⟨c2, hc2, hA2⟩ := ih _ c1 hc1
    exact ⟨c2, hc2, hA2.trans hA⟩

/-! ### The comparative list of two string lists -/

theorem missingOf_eq (a b : List String) :
    missingOf a b =
      (unmatchedIdx a b 0).foldl (fun m e => ComparativeList.addB m e.1 e.2)
        ((unmatchedIdx b a 0).foldl (fun m e => ComparativeList.addA m e.1 e.2) []) := by
  unfold missingOf
  rw [loopB_eq, loopA_eq, tracker_nil, tracker_nil]

theorem missingOf_sound (a b : List String) :
    Sound (unmatchedIdx b a 0) (unmatchedIdx a b 0) (missingOf a b) := by
  rw [missingOf_eq]
  apply sound_foldB _ _ (fun e he => he)
  apply sound_foldA _ _ (fun e he => he)
  intro k c hc
  simp at hc

theorem missingOf_A (a b : List String) (k : Nat) (x : String)
    (h : (k, x) ∈ unmatchedIdx b a 0) : ∃ c, (k, c) ∈ missingOf a b ∧ c.A = some x := by
  rw [missingOf_eq]
  obtain ⟨c, hc, hA⟩ := complete_foldA (unmatchedIdx b a 0) [] k x
    (nodup_keys_unmatchedIdx b a 0) h
  obtain ⟨c1, hc1, hA1⟩ := keepA_foldB (unmatchedIdx a b 0) _ k c hc
  exact ⟨c1, hc1, hA1.trans hA⟩

theorem missingOf_B (a b : List String) (k : Nat) (y : String)
    (h : (k, y) ∈ unmatchedIdx a b 0) : ∃ c, (k, c) ∈ missingOf a b ∧ c.B = some y := by
  rw [missingOf_eq]
  exact complete_foldB (unmatchedIdx a b 0) _ k y (nodup_keys_unmatchedIdx a b 0) h

theorem Diff_eq (a b : List String) :
    Diff a b = ((missingOf a b).map (keyChanges [])).flatten := by
  show (if (missingOf a b).length == 0 then [] else diffComparative [] [] (missingOf a b)) = _
  split
  · rename_i h
    have h0 : missingOf a b = [] := by
      apply List.eq_nil_of_length_eq_zero
      simpa using h
    rw [h0]
    rfl
  · rw [diffComparative_eq]
    simp

/-- The shape of the change written for one key. -/
theorem keyChanges_cases (a b : List String) (k : Nat) (c : Comparative)
    (h : (k, c) ∈ missingOf a b) :
    (∃ x ∈ a, c = { A := some x, B := none }
        ∧ keyChanges [] (k, c) = [{ Typ := DELETE, Path := [idstring k], From := some x, To := none }])
    ∨ (∃ y ∈ b, c = { A := none, B := some y }
        ∧ keyChanges [] (k, c) = [{ Typ := CREATE, Path := [idstring k], From := none, To := some y }])
    ∨ (∃ x ∈ a, ∃ y ∈ b, x ≠ y ∧ c = { A := some x, B := some y }
        ∧ keyChanges [] (k, c) = [{ Typ := UPDATE, Path := [idstring k], From := some x, To := some y }]) := by
  obtain ⟨hA, hB, hne⟩ := missingOf_sound a b k c h
  obtain ⟨cA, cB⟩ := c
  cases cA with
  | none =>
    cases cB with
    | none => simp at hne
    | some y =>
      have hy := mem_unmatchedIdx _ _ _ _ _ (hB y rfl)
      exact Or.inr (Or.inl ⟨y, hy.2, rfl, by
        simp [keyChanges, diffValue, diffString, Changelog.Add]⟩)
  | some x =>
    have hx := mem_unmatchedIdx _ _ _ _ _ (hA x rfl)
    cases cB with
    | none =>
      exact Or.inl ⟨x, hx.2, rfl, by
        simp [keyChanges, diffValue, diffString, Changelog.Add]⟩
    | some y =>
      have hy := mem_unmatchedIdx _ _ _ _ _ (hB y rfl)
      have hxy : x ≠ y := by
        intro hxy
        subst hxy
        have h1 := count_lt_of_mem_unmatchedIdx _ _ _ _ _ (hA x rfl)
        have h2 := count_lt_of_mem_unmatchedIdx _ _ _ _ _ (hB x rfl)
        omega
      exact Or.inr (Or.inr ⟨x, hx.2, y, hy.2, hxy, rfl, by
        simp [keyChanges, diffValue, diffString, Changelog.Add, hxy]⟩)

theorem keyChanges_ne_nil (a b : List String) (k : Nat) (c : Comparative)
    (h : (k, c) ∈ missingOf a b) : keyChanges [] (k, c) ≠ [] := by
  rcases keyChanges_cases a b k c h with ⟨_, _, _, h1⟩ | ⟨_, _, _, h1⟩ | ⟨_, _, _, _, _, _, h1⟩ <;>
    simp [h1]

theorem Diff_eq_nil_iff_perm (a b : List String) : Diff a b = [] ↔ a.Perm b := by
  constructor
  · intro h
    rw [Diff_eq] at h
    have hm : missingOf a b = [] := by
      cases hmm : missingOf a b with
      | nil => rfl
      | cons e rest =>
        exfalso
        obtain ⟨k, c⟩ := e
        have hmem : (k, c) ∈ missingOf a b := by simp [hmm]
        have h1 := keyChanges_ne_nil a b k c hmem
        rw [hmm] at h
        simp at h
        exact h1 h.1
    have hMA : unmatchedIdx b a 0 = [] := by
      cases hh : unmatchedIdx b a 0 with
      | nil => rfl
      | cons e rest =>
        exfalso
        obtain ⟨k, x⟩ := e
        obtain ⟨c, hc, _⟩ := missingOf_A a b k x (by simp [hh])
        simp [hm] at hc
    have hMB : unmatchedIdx a b 0 = [] := by
      cases hh : unmatchedIdx a b 0 with
      | nil => rfl
      | cons e rest =>
        exfalso
        obtain ⟨k, x⟩ := e
        obtain ⟨c, hc, _⟩ := missingOf_B a b k x (by simp [hh])
        simp [hm] at hc
    rw [List.perm_iff_count]
    intro y
    have h1 := count_le_of_unmatchedIdx_nil b a 0 hMA y
    have h2 := count_le_of_unmatchedIdx_nil a b 0 hMB y
    omega
  · intro h
    have hc := List.perm_iff_count.1 h
    have hMA : unmatchedIdx b a 0 = [] := by
      cases hh : unmatchedIdx b a 0 with
      | nil => rfl
      | cons e rest =>
        exfalso
        obtain ⟨k, x⟩ := e
        have := count_lt_of_mem_unmatchedIdx b a 0 k x (by simp [hh])
        have := hc x
        omega
    have hMB : unmatchedIdx a b 0 = [] := by
      cases hh : unmatchedIdx a b 0 with
      | nil => rfl
      | cons e rest =>
        exfalso
        obtain ⟨k, x⟩ := e
        have := count_lt_of_mem_unmatchedIdx a b 0 k x (by simp [hh])
        have := hc x
        omega
    rw [Diff_eq, missingOf_eq, hMA, hMB]
    rfl

theorem mem_Diff_iff (a b : List String) (e : Change) :
    e ∈ Diff a b ↔ ∃ k c, (k, c) ∈ missingOf a b ∧ e ∈ keyChanges [] (k, c) := by
  rw [Diff_eq]
  simp only [List.mem_flatten, List.mem_map]
  constructor
  · rintro ⟨l, ⟨⟨k, c⟩, hkc, rfl⟩, he⟩
    exact ⟨k, c, hkc, he⟩
  · rintro ⟨k, c, hkc, he⟩
    exact ⟨_, ⟨(k, c), hkc, rfl⟩, he⟩

/-- Every change of the changelog of two string lists is a delete of an
element of the first, a create of an element of the second, or an update from
an element of the first to a different element of the second. -/
theorem Diff_change_cases (a b : List String) (e : Change) (h : e ∈ Diff a b) :
    (e.Typ = DELETE ∧ e.To = none ∧ ∃ x ∈ a, e.From = some x)
    ∨ (e.Typ = CREATE ∧ e.From = none ∧ ∃ y ∈ b, e.To = some y)
    ∨ (e.Typ = UPDATE ∧ ∃ x ∈ a, ∃ y ∈ b, x ≠ y ∧ e.From = some x ∧ e.To = some y) := by
  obtain ⟨k, c, hkc, he⟩ := (mem_Diff_iff a b e).1 h
  rcases keyChanges_cases a b k c hkc with ⟨x, hx, _, h1⟩ | ⟨y, hy, _, h1⟩ |
      ⟨x, hx, y, hy, hxy, _, h1⟩
  · rw [h1] at he
    simp at he
    subst he
    exact Or.inl ⟨rfl, rfl, x, hx, rfl⟩
  · rw [h1] at he
    simp at he
    subst he
    exact Or.inr (Or.inl ⟨rfl, rfl, y, hy, rfl⟩)
  · rw [h1] at he
    simp at he
    subst he
    exact Or.inr (Or.inr ⟨rfl, x, hx, y, hy, hxy, rfl, rfl⟩)

/-- An element of the first list that the second lacks is the `From` value of
a delete or of an update. -/
theorem Diff_from_of_only_first (a b : List String) (f : String) (ha : f ∈ a) (hb : f ∉ b) :
    ∃ e ∈ Diff a b, e.From = some f ∧ (e.Typ = DELETE ∨ e.Typ = UPDATE) := by
  obtain ⟨k, hk⟩ := exists_mem_unmatchedIdx b a 0 f ha hb
  obtain ⟨c, hc, hA⟩ := missingOf_A a b k f hk
  rcases keyChanges_cases a b k c hc with ⟨x, _, hcx, h1⟩ | ⟨y, _, hcy, h1⟩ |
      ⟨x, _, y, _, _, hcxy, h1⟩
  · rw [hcx] at hA
    simp at hA
    subst hA
    exact ⟨{ Typ := DELETE, Path := [idstring k], From := some x, To := none },
      (mem_Diff_iff a b _).2 ⟨k, c, hc, by rw [h1]; simp⟩, rfl, Or.inl rfl⟩
  · rw [hcy] at hA
    simp at hA
  · rw [hcxy] at hA
    simp at hA
    subst hA
    exact ⟨{ Typ := UPDATE, Path := [idstring k], From := some x, To := some y },
      (mem_Diff_iff a b _).2 ⟨k, c, hc, by rw [h1]; simp⟩, rfl, Or.inr rfl⟩

/-- An element of the second list that the first lacks is the `To` value of a
create or of an update. -/
theorem Diff_to_of_only_second (a b : List String) (f : String) (ha : f ∉ a) (hb : f ∈ b) :
    ∃ e ∈ Diff a b, e.To = some f ∧ (e.Typ = CREATE ∨ e.Typ = UPDATE) := by
  obtain ⟨k, hk⟩ := exists_mem_unmatchedIdx a b 0 f hb ha
  obtain ⟨c, hc, hB⟩ := missingOf_B a b k f hk
  rcases keyChanges_cases a b k c hc with ⟨x, _, hcx, h1⟩ | ⟨y, _, hcy, h1⟩ |
      ⟨x, _, y, _, _, hcxy, h1⟩
  · rw [hcx] at hB
    simp at hB
  · rw [hcy] at hB
    simp at hB
    subst hB
    exact ⟨{ Typ := CREATE, Path := [idstring k], From := none, To := some y },
      (mem_Diff_iff a b _).2 ⟨k, c, hc, by rw [h1]; simp⟩, rfl, Or.inl rfl⟩
  · rw [hcxy] at hB
    simp at hB
    subst hB
    exact ⟨{ Typ := UPDATE, Path := [idstring k], From := some x, To := some y },
      (mem_Diff_iff a b _).2 ⟨k, c, hc, by rw [h1]; simp⟩, rfl, Or.inr rfl⟩

end diff

namespace Kibana

theorem stringInSlice_iff (a : String) (list : List String) :
    stringInSlice a list = true ↔ a ∈ list := by
  induction list with
  | nil => simp [stringInSlice]
  | cons b list ih =>
    by_cases h : b = a
    · simp [stringInSlice, h]
    · have h1 : ¬ a = b := fun h1 => h h1.symm
      simp [stringInSlice, h, h1, ih]

theorem updateSpace_same (g : Globals) (w : World) (addr : String) (space : Space)
    (h : diff.Diff g.disabledFeatures space.DisabledFeatures = []) :
    updateSpace g w addr space
      = { started := [space], writes := [],
          sent := [{ Space := space, Changelog := [] }], fatal := false } := by
  simp [updateSpace, h]

theorem updateSpace_changed (g : Globals) (w : World) (addr : String) (space : Space)
    (u : String) (h : diff.Diff g.disabledFeatures space.DisabledFeatures ≠ [])
    (hurl : w.ParseURL (addr ++ "/api/spaces/space/" ++ space.ID) = some u) :
    updateSpace g w addr space
      = match w.Do (putRequest g u space) with
        | none => { started := [space], writes := [putRequest g u space], sent := [],
                    fatal := true }
        | some _ => { started := [space], writes := [putRequest g u space],
                      sent := [{ Space := space,
                                 Changelog := diff.Diff g.disabledFeatures space.DisabledFeatures }],
                      fatal := false } := by
  have hlen : 0 < (diff.Diff g.disabledFeatures space.DisabledFeatures).length :=
    List.length_pos.2 h
  simp only [updateSpace, hlen, gt_iff_lt, if_true, NewRequest, hurl]
  rfl

theorem updateSpace_unbuilt (g : Globals) (w : World) (addr : String) (space : Space)
    (h : diff.Diff g.disabledFeatures space.DisabledFeatures ≠ [])
    (hurl : w.ParseURL (addr ++ "/api/spaces/space/" ++ space.ID) = none) :
    updateSpace g w addr space
      = { started := [space], writes := [], sent := [], fatal := true } := by
  have hlen : 0 < (diff.Diff g.disabledFeatures space.DisabledFeatures).length :=
    List.length_pos.2 h
  simp only [updateSpace, hlen, gt_iff_lt, if_true, NewRequest, hurl]

theorem disabledFeatures_Marshal (space : Space) :
    JSONObject.disabledFeatures (Marshal space) = space.DisabledFeatures := by
  cases hd : space.DisabledFeatures with
  | nil =>
    simp only [Marshal, omitemptyString, omitemptySlice, hd]
    split_ifs <;> simp [JSONObject.disabledFeatures]
  | cons x l =>
    simp only [Marshal, omitemptyString, omitemptySlice, hd]
    split_ifs <;> simp [JSONObject.disabledFeatures] at *

theorem hasKey_Marshal (space : Space) :
    (Marshal space).hasKey "disabledFeatures" = true ↔ space.DisabledFeatures ≠ [] := by
  cases hd : space.DisabledFeatures with
  | nil =>
    simp only [Marshal, omitemptyString, omitemptySlice, hd]
    split_ifs <;> simp_all [JSONObject.hasKey]
  | cons x l =>
    simp only [Marshal, omitemptyString, omitemptySlice, hd]
    split_ifs <;> simp [JSONObject.hasKey] at *

/-! ## The claims -/

/-- C1, as stated, fails: the current list `["a", "b"]` differs from the
desired list `["b", "a"]` as a sequence, yet `updateSpace` issues no write and
sends an empty changelog. -/
theorem C1_counterexample_reordering :
    (demoSpace ["a", "b"]).DisabledFeatures ≠ (demoGlobals ["b", "a"] []).disabledFeatures
      ∧ (updateSpace (demoGlobals ["b", "a"] []) demoWorld "http://k"
            (demoSpace ["a", "b"])).writes = []
      ∧ (updateSpace (demoGlobals ["b", "a"] []) demoWorld "http://k"
            (demoSpace ["a", "b"])).sent
          = [{ Space := demoSpace ["a", "b"], Changelog := [] }] := by
  decide

/-- C1, amended.  When the current list is a reordering of the desired list,
`updateSpace` hands no request to the client and sends one outcome, with an
empty changelog.  When it is not (the two differ as multisets, which includes a
repeated element) and `http.NewRequest` accepts the URL, `updateSpace` hands
exactly one request to the client, the list decoded from its body is the
desired list, every outcome it sends has a non-empty changelog, and it sends
one whenever the client returns a response. -/
theorem C1_write_iff_not_reordering (g : Globals) (w : World) (addr : String) (space : Space) :
    (space.DisabledFeatures.Perm g.disabledFeatures →
        (updateSpace g w addr space).writes = []
          ∧ (updateSpace g w addr space).sent = [{ Space := space, Changelog := [] }])
      ∧ (¬ space.DisabledFeatures.Perm g.disabledFeatures →
          ∀ u, w.ParseURL (addr ++ "/api/spaces/space/" ++ space.ID) = some u →
          ∃ req, (updateSpace g w addr space).writes = [req]
            ∧ req.Body.disabledFeatures = g.disabledFeatures
            ∧ (∀ o ∈ (updateSpace g w addr space).sent, o.Changelog ≠ [])
            ∧ (w.Do req ≠ none →
                ∃ o, (updateSpace g w addr space).sent = [o] ∧ o.Space = space
                  ∧ o.Changelog ≠ [])) := by
  constructor
  · intro hperm
    have h0 : diff.Diff g.disabledFeatures space.DisabledFeatures = [] :=
      (diff.Diff_eq_nil_iff_perm _ _).2 hperm.symm
    rw [updateSpace_same g w addr space h0]
    exact ⟨rfl, rfl⟩
  · intro hdiff u hurl
    have hne : diff.Diff g.disabledFeatures space.DisabledFeatures ≠ [] := by
      intro h
      exact hdiff ((diff.Diff_eq_nil_iff_perm _ _).1 h).symm
    refine ⟨putRequest g u space, ?_, ?_, ?_, ?_⟩
    · rw [updateSpace_changed g w addr space u hne hurl]
      cases w.Do (putRequest g u space) <;> rfl
    · exact disabledFeatures_Marshal _
    · rw [updateSpace_changed g w addr space u hne hurl]
      cases w.Do (putRequest g u space) with
      | none => simp
      | some r => simpa using hne
    · intro hdo
      rw [updateSpace_changed g w addr space u hne hurl]
      cases hr : w.Do (putRequest g u space) with
      | none => exact absurd hr hdo
      | some r => exact ⟨_, rfl, rfl, hne⟩

/-- Witness of C1 amended: the reordering `["b", "c"]` of the desired list
`["c", "b"]`, and the current list `["a", "a"]` against the desired list
`["a"]`. -/
theorem C1_write_iff_not_reordering_witness :
    ((updateSpace (demoGlobals ["c", "b"] []) demoWorld "http://k"
          (demoSpace ["b", "c"])).writes = []
        ∧ (updateSpace (demoGlobals ["c", "b"] []) demoWorld "http://k"
            (demoSpace ["b", "c"])).sent
          = [{ Space := demoSpace ["b", "c"], Changelog := [] }])
      ∧ ∃ req, (updateSpace (demoGlobals ["a"] []) demoWorld "http://k"
                  (demoSpace ["a", "a"])).writes = [req]
          ∧ req.Body.disabledFeatures = (demoGlobals ["a"] []).disabledFeatures
          ∧ (∀ o ∈ (updateSpace (demoGlobals ["a"] []) demoWorld "http://k"
                      (demoSpace ["a", "a"])).sent, o.Changelog ≠ [])
          ∧ (demoWorld.Do req ≠ none →
              ∃ o, (updateSpace (demoGlobals ["a"] []) demoWorld "http://k"
                      (demoSpace ["a", "a"])).sent = [o]
                ∧ o.Space = demoSpace ["a", "a"] ∧ o.Changelog ≠ []) :=
  ⟨(C1_write_iff_not_reordering (demoGlobals ["c", "b"] []) demoWorld "http://k"
      (demoSpace ["b", "c"])).1 (List.Perm.swap "c" "b" []),
   (C1_write_iff_not_reordering (demoGlobals ["a"] []) demoWorld "http://k"
      (demoSpace ["a", "a"])).2 (fun h => absurd h.length_eq (by decide))
      "http://k/api/spaces/space/a" (by decide)⟩

/-- C2: when the current list of the space equals the desired list,
`updateSpace` hands no request to the client and sends exactly one outcome,
with the space as fetched and an empty changelog. -/
theorem C2_no_write_when_equal (g : Globals) (w : World) (addr : String) (space : Space)
    (h : space.DisabledFeatures = g.disabledFeatures) :
    (updateSpace g w addr space).writes = []
      ∧ (updateSpace g w addr space).sent = [{ Space := space, Changelog := [] }]
      ∧ (updateSpace g w addr space).fatal = false := by
  have h0 : diff.Diff g.disabledFeatures space.DisabledFeatures = [] := by
    rw [h]
    exact (diff.Diff_eq_nil_iff_perm _ _).2 (List.Perm.refl _)
  rw [updateSpace_same g w addr space h0]
  exact ⟨rfl, rfl, rfl⟩

/-- Witness of C2: space "b" of the scenario, lists `["y", "z"]`. -/
theorem C2_no_write_when_equal_witness :
    (updateSpace (demoGlobals ["y", "z"] []) demoWorld "http://k"
        (demoSpace ["y", "z"])).writes = []
      ∧ (updateSpace (demoGlobals ["y", "z"] []) demoWorld "http://k"
          (demoSpace ["y", "z"])).sent = [{ Space := demoSpace ["y", "z"], Changelog := [] }]
      ∧ (updateSpace (demoGlobals ["y", "z"] []) demoWorld "http://k"
          (demoSpace ["y", "z"])).fatal = false :=
  C2_no_write_when_equal (demoGlobals ["y", "z"] []) demoWorld "http://k"
    (demoSpace ["y", "z"]) rfl

/-- C4, as stated, fails: the changelog of `["a", "b"]` against `["b", "a"]`
is empty although the two lists are not equal as sequences. -/
theorem C4_counterexample_reordering :
    ¬ (diff.Diff ["a", "b"] ["b", "a"] = [] ↔ (["a", "b"] : List String) = ["b", "a"]) := by
  decide

/-- C4, amended: the changelog that `updateSpace` computes for two string
lists is empty if and only if one is a reordering of the other (the same
elements with the same multiplicities, in any order); in particular the
changelog of a list against itself is empty. -/
theorem C4_changelog_empty_iff_reordering (A B : List String) :
    (diff.Diff A B = [] ↔ A.Perm B) ∧ diff.Diff A A = [] :=
  ⟨diff.Diff_eq_nil_iff_perm A B, (diff.Diff_eq_nil_iff_perm A A).2 (List.Perm.refl A)⟩

theorem updateSpace_ok (g : Globals) (w : World) (addr : String) (space : Space)
    (hok : diff.Diff g.disabledFeatures space.DisabledFeatures ≠ [] →
      ∃ u, w.ParseURL (addr ++ "/api/spaces/space/" ++ space.ID) = some u
        ∧ w.Do (putRequest g u space) ≠ none) :
    (updateSpace g w addr space).started = [space]
      ∧ (updateSpace g w addr space).sent.map (fun o => o.Space) = [space]
      ∧ (updateSpace g w addr space).fatal = false := by
  by_cases h : diff.Diff g.disabledFeatures space.DisabledFeatures = []
  · rw [updateSpace_same g w addr space h]
    simp
  · obtain ⟨u, hu, hdo⟩ := hok h
    rw [updateSpace_changed g w addr space u h hu]
    cases hr : w.Do (putRequest g u space) with
    | none => exact absurd hr hdo
    | some r => simp

theorem spawn_ok (g : Globals) (w : World) (spaces : List Space)
    (hok : ∀ s ∈ spaces, s.ID ∉ g.excludedSpaces →
      diff.Diff g.disabledFeatures s.DisabledFeatures ≠ [] →
      ∃ u, w.ParseURL (g.kibanaAddress ++ "/api/spaces/space/" ++ s.ID) = some u
        ∧ w.Do (putRequest g u s) ≠ none) :
    (spawn g w spaces).started
        = spaces.filter (fun s => decide (s.ID ∉ g.excludedSpaces))
      ∧ (spawn g w spaces).sent.map (fun o => o.Space)
        = spaces.filter (fun s => decide (s.ID ∉ g.excludedSpaces))
      ∧ (spawn g w spaces).fatal = false
      ∧ (spawn g w spaces).writes
        = ((spaces.filter (fun s => decide (s.ID ∉ g.excludedSpaces))).map
            (fun s => (updateSpace g w g.kibanaAddress s).writes)).flatten := by
  induction spaces with
  | nil => simp [spawn]
  | cons space rest ih =>
    obtain ⟨i1, i2, i3, i4⟩ := ih (fun s hs => hok s (List.mem_cons_of_mem _ hs))
    by_cases hex : space.ID ∈ g.excludedSpaces
    · have hs : stringInSlice space.ID g.excludedSpaces = true :=
        (stringInSlice_iff _ _).2 hex
      simp only [spawn, hs, Bool.not_true, Bool.false_eq_true, if_false]
      refine ⟨?_, ?_, i3, ?_⟩
      · rw [i1]
        simp [hex]
      · rw [i2]
        simp [hex]
      · rw [i4]
        simp [hex]
    · have hs : stringInSlice space.ID g.excludedSpaces = false := by
        cases hb : stringInSlice space.ID g.excludedSpaces with
        | false => rfl
        | true => exact absurd ((stringInSlice_iff _ _).1 hb) hex
      obtain ⟨u1, u2, u3⟩ := updateSpace_ok g w g.kibanaAddress space
        (hok space (List.mem_cons_self _ _) hex)
      simp only [spawn, hs, Bool.not_false, if_true, Effects.andThen, u3, Bool.false_eq_true,
        if_false]
      refine ⟨?_, ?_, i3, ?_⟩
      · rw [u1, i1]
        simp [hex]
      · rw [List.map_append, u2, i2]
        simp [hex]
      · rw [i4]
        simp [hex]

theorem length_filter_not (spaces : List Space) (p : Space → Prop) [DecidablePred p] :
    (spaces.filter (fun s => decide (¬ p s))).length
      = spaces.length - (spaces.filter (fun s => decide (p s))).length := by
  induction spaces with
  | nil => rfl
  | cons s rest ih =>
    have hle : (rest.filter (fun s => decide (p s))).length ≤ rest.length :=
      List.length_filter_le _ _
    by_cases h : p s
    · simp only [List.filter_cons, h, not_true_eq_false, decide_False, decide_True,
        Bool.false_eq_true, if_false, if_true, List.length_cons, ih]
      omega
    · simp only [List.filter_cons, h, not_false_eq_true, decide_False, decide_True,
        Bool.false_eq_true, if_false, if_true, List.length_cons, ih]
      omega

/-- C3: after a directory read that yields `spaces`, and provided no request of
the run fails (for each non-excluded space that needs a write, the URL parses
and the client returns a response), the outcomes received (in whatever order
they arrive) are, up to order, the input spaces whose identifier is not in the
exclusion list; their number is the number of input spaces minus the number of
input spaces whose identifier is excluded; no outcome carries an excluded
identifier; exactly the non-excluded spaces get a unit, and the writes of the
run are the writes of those units, so an excluded space produces none. -/
theorem C3_outcomes_are_non_excluded (g : Globals) (w : World) (resp : Response)
    (body : String) (spaces : List Space) (outs : List SpaceChange)
    (hget : w.Get (g.kibanaAddress ++ "/api/spaces/space") = some resp)
    (hbody : resp.Body = some body) (hdec : w.Unmarshal body = some spaces)
    (hok : ∀ s ∈ spaces, s.ID ∉ g.excludedSpaces →
      diff.Diff g.disabledFeatures s.DisabledFeatures ≠ [] →
      ∃ u, w.ParseURL (g.kibanaAddress ++ "/api/spaces/space/" ++ s.ID) = some u
        ∧ w.Do (putRequest g u s) ≠ none)
    (hrecv : Received g w outs) :
    (outs.map (fun o => o.Space)).Perm
        (spaces.filter (fun s => decide (s.ID ∉ g.excludedSpaces)))
      ∧ outs.length
          = spaces.length - (spaces.filter (fun s => decide (s.ID ∈ g.excludedSpaces))).length
      ∧ (∀ o ∈ outs, o.Space.ID ∉ g.excludedSpaces)
      ∧ (main g w).started = spaces.filter (fun s => decide (s.ID ∉ g.excludedSpaces))
      ∧ (main g w).writes
          = ((spaces.filter (fun s => decide (s.ID ∉ g.excludedSpaces))).map
              (fun s => (updateSpace g w g.kibanaAddress s).writes)).flatten
      ∧ (main g w).fatal = false := by
  have hmain : main g w = spawn g w spaces := by
    simp [main, hget, hbody, hdec]
  obtain ⟨s1, s2, s3, s4⟩ := spawn_ok g w spaces hok
  unfold Received at hrecv
  rw [hmain] at hrecv
  have hperm : (outs.map (fun o => o.Space)).Perm
      (spaces.filter (fun s => decide (s.ID ∉ g.excludedSpaces))) := by
    rw [← s2]
    exact hrecv.map _
  refine ⟨hperm, ?_, ?_, ?_, ?_, ?_⟩
  · have hl := hperm.length_eq
    rw [List.length_map] at hl
    rw [hl]
    exact length_filter_not spaces (fun s => s.ID ∈ g.excludedSpaces)
  · intro o ho
    have hmem : o.Space ∈ outs.map (fun o => o.Space) := List.mem_map.2 ⟨o, ho, rfl⟩
    have hf := (hperm.mem_iff).1 hmem
    rw [List.mem_filter] at hf
    simpa using hf.2
  · rw [hmain]
    exact s1
  · rw [hmain]
    exact s4
  · rw [hmain]
    exact s3

/-- Witness of C3: the directory `[a, b]` with exclusion list
`["b", "zz", "b"]`, which names "b" twice and an identifier of no space. -/
theorem C3_outcomes_are_non_excluded_witness :
    ([({ Space := demoSpace ["x"],
         Changelog := diff.Diff ["y", "z"] ["x"] } : SpaceChange)].map (fun o => o.Space)).Perm
        ([demoSpace ["x"], { demoSpace ["y", "z"] with ID := "b", Name := "B" }].filter
          (fun s => decide (s.ID ∉ (demoGlobals ["y", "z"] ["b", "zz", "b"]).excludedSpaces)))
      ∧ [({ Space := demoSpace ["x"],
            Changelog := diff.Diff ["y", "z"] ["x"] } : SpaceChange)].length
          = [demoSpace ["x"], { demoSpace ["y", "z"] with ID := "b", Name := "B" }].length
            - ([demoSpace ["x"], { demoSpace ["y", "z"] with ID := "b", Name := "B" }].filter
                (fun s => decide
                  (s.ID ∈ (demoGlobals ["y", "z"] ["b", "zz", "b"]).excludedSpaces))).length
      ∧ (∀ o ∈ [({ Space := demoSpace ["x"],
                   Changelog := diff.Diff ["y", "z"] ["x"] } : SpaceChange)],
            o.Space.ID ∉ (demoGlobals ["y", "z"] ["b", "zz", "b"]).excludedSpaces)
      ∧ (main (demoGlobals ["y", "z"] ["b", "zz", "b"]) demoWorld).started
          = [demoSpace ["x"], { demoSpace ["y", "z"] with ID := "b", Name := "B" }].filter
              (fun s => decide (s.ID ∉ (demoGlobals ["y", "z"] ["b", "zz", "b"]).excludedSpaces))
      ∧ (main (demoGlobals ["y", "z"] ["b", "zz", "b"]) demoWorld).writes
          = (([demoSpace ["x"], { demoSpace ["y", "z"] with ID := "b", Name := "B" }].filter
              (fun s => decide
                (s.ID ∉ (demoGlobals ["y", "z"] ["b", "zz", "b"]).excludedSpaces))).map
              (fun s => (updateSpace (demoGlobals ["y", "z"] ["b", "zz", "b"]) demoWorld
                (demoGlobals ["y", "z"] ["b", "zz", "b"]).kibanaAddress s).writes)).flatten
      ∧ (main (demoGlobals ["y", "z"] ["b", "zz", "b"]) demoWorld).fatal = false :=
  C3_outcomes_are_non_excluded (demoGlobals ["y", "z"] ["b", "zz", "b"]) demoWorld
    { StatusCode := 200, Body := some "directory" } "directory"
    [demoSpace ["x"], { demoSpace ["y", "z"] with ID := "b", Name := "B" }]
    [{ Space := demoSpace ["x"], Changelog := diff.Diff ["y", "z"] ["x"] }]
    rfl rfl rfl
    (fun s hs _ _ => by
      simp only [List.mem_cons, List.mem_singleton, List.not_mem_nil, or_false] at hs
      rcases hs with rfl | rfl
      · exact ⟨"http://k/api/spaces/space/a", by decide, fun h => by cases h⟩
      · exact ⟨"http://k/api/spaces/space/b", by decide, fun h => by cases h⟩)
    (by unfold Received; exact List.Perm.of_eq (by decide))

/-- C5, as stated, fails: for a space with no disabled feature and the desired
list `["x"]`, the changelog sent is not the diff from the current list to the
desired list (a create of "x") but the diff from the desired list to the
current list: "x", present only in the desired list, is reported by a delete. -/
theorem C5_counterexample_direction :
    (updateSpace (demoGlobals ["x"] []) demoWorld "http://k" (demoSpace [])).sent
        = [{ Space := demoSpace [],
             Changelog := [{ Typ := "delete", Path := ["0"], From := some "x", To := none }] }]
      ∧ diff.Diff (demoSpace []).DisabledFeatures (demoGlobals ["x"] []).disabledFeatures
        = [{ Typ := "create", Path := ["0"], From := none, To := some "x" }] := by
  decide

/-- C5, amended: the changelog of every outcome that `updateSpace` sends is the
diff whose first (from) argument is the desired list and whose second (to)
argument is the current list of the space; a feature present only in the
desired list is reported by a delete or an update that carries it as `From`,
a feature present only in the current list by a create or an update that
carries it as `To`; and an outcome is sent unless the process was ended. -/
theorem C5_changelog_from_desired_to_current (g : Globals) (w : World) (addr : String)
    (space : Space) :
    ((updateSpace g w addr space).fatal = false →
        ∃ o, (updateSpace g w addr space).sent = [o])
      ∧ ∀ o ∈ (updateSpace g w addr space).sent,
          o.Changelog = diff.Diff g.disabledFeatures space.DisabledFeatures
          ∧ (∀ f, f ∈ g.disabledFeatures → f ∉ space.DisabledFeatures →
              ∃ e ∈ o.Changelog, e.From = some f
                ∧ (e.Typ = diff.DELETE ∨ e.Typ = diff.UPDATE))
          ∧ (∀ f, f ∈ space.DisabledFeatures → f ∉ g.disabledFeatures →
              ∃ e ∈ o.Changelog, e.To = some f
                ∧ (e.Typ = diff.CREATE ∨ e.Typ = diff.UPDATE)) := by
  have key : ∀ o : SpaceChange,
      o.Changelog = diff.Diff g.disabledFeatures space.DisabledFeatures →
      o.Changelog = diff.Diff g.disabledFeatures space.DisabledFeatures
        ∧ (∀ f, f ∈ g.disabledFeatures → f ∉ space.DisabledFeatures →
            ∃ e ∈ o.Changelog, e.From = some f
              ∧ (e.Typ = diff.DELETE ∨ e.Typ = diff.UPDATE))
        ∧ (∀ f, f ∈ space.DisabledFeatures → f ∉ g.disabledFeatures →
            ∃ e ∈ o.Changelog, e.To = some f
              ∧ (e.Typ = diff.CREATE ∨ e.Typ = diff.UPDATE)) := by
    intro o ho
    refine ⟨ho, ?_, ?_⟩
    · intro f h1 h2
      rw [ho]
      exact diff.Diff_from_of_only_first _ _ f h1 h2
    · intro f h1 h2
      rw [ho]
      exact diff.Diff_to_of_only_second _ _ f h2 h1
  by_cases h : diff.Diff g.disabledFeatures space.DisabledFeatures = []
  · rw [updateSpace_same g w addr space h]
    refine ⟨fun _ => ⟨_, rfl⟩, ?_⟩
    intro o ho
    simp only [List.mem_singleton] at ho
    subst ho
    exact key _ h.symm
  · cases hp : w.ParseURL (addr ++ "/api/spaces/space/" ++ space.ID) with
    | none =>
      rw [updateSpace_unbuilt g w addr space h hp]
      simp
    | some u =>
      rw [updateSpace_changed g w addr space u h hp]
      cases w.Do (putRequest g u space) with
      | none => simp
      | some r =>
        refine ⟨fun _ => ⟨_, rfl⟩, ?_⟩
        intro o ho
        simp only [List.mem_singleton] at ho
        subst ho
        exact key _ rfl

/-- C6, as stated, fails: with address "http://k" and space "a" the request
goes to "http://k/api/spaces/space/a", not to "http://k/spaces/space/a". -/
theorem C6_counterexample_api_segment :
    (updateSpace (demoGlobals ["y", "z"] []) demoWorld "http://k" (demoSpace ["x"])).writes.map
        (fun r => r.URL) = ["http://k/api/spaces/space/a"]
      ∧ ¬ ((updateSpace (demoGlobals ["y", "z"] []) demoWorld "http://k"
              (demoSpace ["x"])).writes.map (fun r => r.URL)
            = ["http://k" ++ "/spaces/space/" ++ (demoSpace ["x"]).ID]) := by
  decide

/-- C6, amended: for every base address and every space with a non-empty
changelog, `updateSpace` gives `http.NewRequest` the method PUT and exactly the
string formed by the address followed by "/api/spaces/space/" followed by the
identifier of the space; when that string parses, the one request handed to the
client targets the URL parsed from it, whatever the parser makes of the string,
and carries the headers "kbn-xsrf: spaces updater" and
"Content-Type: application/json". -/
theorem C6_put_request_shape (g : Globals) (w : World) (addr : String) (space : Space)
    (u : String) (hcl : diff.Diff g.disabledFeatures space.DisabledFeatures ≠ [])
    (hurl : w.ParseURL (addr ++ "/api/spaces/space/" ++ space.ID) = some u) :
    ∃ req, (updateSpace g w addr space).writes = [req]
      ∧ req.Method = "PUT"
      ∧ req.URL = u
      ∧ req.Header.Get "kbn-xsrf" = "spaces updater"
      ∧ req.Header.Get "Content-Type" = "application/json" := by
  have hk : Header.Get (Header.Set (Header.Set [] "Content-Type" "application/json")
      "kbn-xsrf" "spaces updater") "kbn-xsrf" = "spaces updater" := by decide
  have hc : Header.Get (Header.Set (Header.Set [] "Content-Type" "application/json")
      "kbn-xsrf" "spaces updater") "Content-Type" = "application/json" := by decide
  refine ⟨putRequest g u space, ?_, rfl, rfl, hk, hc⟩
  rw [updateSpace_changed g w addr space u hcl hurl]
  cases w.Do (putRequest g u space) <;> rfl

/-- Witness of C6 amended: space "a" of the scenario at "http://k", whose URL
the parser returns as written. -/
theorem C6_put_request_shape_witness :
    ∃ req, (updateSpace (demoGlobals ["y", "z"] []) demoWorld "http://k"
              (demoSpace ["x"])).writes = [req]
      ∧ req.Method = "PUT"
      ∧ req.URL = "http://k/api/spaces/space/a"
      ∧ req.Header.Get "kbn-xsrf" = "spaces updater"
      ∧ req.Header.Get "Content-Type" = "application/json" :=
  C6_put_request_shape (demoGlobals ["y", "z"] []) demoWorld "http://k" (demoSpace ["x"])
    "http://k/api/spaces/space/a" (by decide) (by decide)

/-- C7, evaluated at the failing input: for a space "a" whose current list is
`["x"]` and an empty desired list, the changelog is one create of "x", and the
text written for the outcome names `%!s(<nil>)`, not "x". -/
theorem C7_report_of_created_entry (w : World) :
    (updateSpace (demoGlobals [] []) demoWorld "http://k" (demoSpace ["x"])).sent
        = [{ Space := demoSpace ["x"],
             Changelog := [{ Typ := "create", Path := ["0"], From := none, To := some "x" }] }]
      ∧ report w { Space := demoSpace ["x"],
                   Changelog := [{ Typ := "create", Path := ["0"], From := none,
                                   To := some "x" }] }
        = "a " ++ (w.ColorSet Attribute.FgMagenta ++ "changes: [%!s(<nil>) -> create] \n"
            ++ w.ColorUnset Attribute.FgMagenta) := by
  refine ⟨by decide, ?_⟩
  simp only [report, colorPrint, changesLoop, formatS, demoSpace]
  rfl

/-- C8: when the directory read fails (the GET returns an error, the body
cannot be read, or the body does not decode as a list of spaces), `main` ends
the process with no unit started, no write and no outcome. -/
theorem C8_abort_on_directory_failure (g : Globals) (w : World)
    (hfail : w.Get (g.kibanaAddress ++ "/api/spaces/space") = none
      ∨ (∃ resp, w.Get (g.kibanaAddress ++ "/api/spaces/space") = some resp
            ∧ resp.Body = none)
      ∨ (∃ resp body, w.Get (g.kibanaAddress ++ "/api/spaces/space") = some resp
            ∧ resp.Body = some body ∧ w.Unmarshal body = none)) :
    (main g w).started = [] ∧ (main g w).writes = [] ∧ (main g w).sent = []
      ∧ (main g w).fatal = true := by
  rcases hfail with h | ⟨resp, h1, h2⟩ | ⟨resp, body, h1, h2, h3⟩
  · simp [main, h]
  · simp [main, h1, h2]
  · simp [main, h1, h2, h3]

/-- Witness of C8: the directory read returns a network error while a space
that would need a write is configured. -/
theorem C8_abort_on_directory_failure_witness :
    (main (demoGlobals ["y", "z"] []) downWorld).started = []
      ∧ (main (demoGlobals ["y", "z"] []) downWorld).writes = []
      ∧ (main (demoGlobals ["y", "z"] []) downWorld).sent = []
      ∧ (main (demoGlobals ["y", "z"] []) downWorld).fatal = true :=
  C8_abort_on_directory_failure (demoGlobals ["y", "z"] []) downWorld (Or.inl rfl)

/-- C9, as stated, fails: a transport error of the PUT is not the only abort.
For a space whose identifier holds a line feed the changelog is non-empty and
the client would answer every request, yet `updateSpace` ends the run at
`http.NewRequest` (line 73), before any PUT. -/
theorem C9_counterexample_unbuilt_request :
    (∀ r, demoWorld.Do r ≠ none)
      ∧ diff.Diff (demoGlobals ["y", "z"] []).disabledFeatures ["x"] ≠ []
      ∧ (updateSpace (demoGlobals ["y", "z"] []) demoWorld "http://k"
          { demoSpace ["x"] with ID := "a\nb" }).fatal = true
      ∧ (updateSpace (demoGlobals ["y", "z"] []) demoWorld "http://k"
          { demoSpace ["x"] with ID := "a\nb" }).writes = [] :=
  ⟨(fun _ h => nomatch h), by decide, by decide, by decide⟩

/-- C9, amended: for a space with a non-empty changelog, `updateSpace` ends the
run in two cases only: `http.NewRequest` rejects the URL (no PUT is sent), or
the PUT is sent and the client returns an error (no outcome either way).
Otherwise the PUT is sent and, whatever response the client returns, the same
outcome is sent, with the space as fetched and its non-empty changelog: the
status is never read, and runs whose responses differ only in status have the
same effects. -/
theorem C9_abort_causes_and_status (g : Globals) (w : World) (addr : String) (space : Space)
    (hcl : diff.Diff g.disabledFeatures space.DisabledFeatures ≠ []) :
    (w.ParseURL (addr ++ "/api/spaces/space/" ++ space.ID) = none →
        (updateSpace g w addr space).fatal = true
          ∧ (updateSpace g w addr space).writes = []
          ∧ (updateSpace g w addr space).sent = [])
      ∧ (∀ u, w.ParseURL (addr ++ "/api/spaces/space/" ++ space.ID) = some u →
          ∃ req, (updateSpace g w addr space).writes = [req]
            ∧ req.Method = "PUT" ∧ req.URL = u
            ∧ (w.Do req = none →
                (updateSpace g w addr space).fatal = true
                  ∧ (updateSpace g w addr space).sent = [])
            ∧ (∀ r, w.Do req = some r →
                (updateSpace g w addr space).fatal = false
                  ∧ (updateSpace g w addr space).sent
                    = [{ Space := space,
                         Changelog := diff.Diff g.disabledFeatures space.DisabledFeatures }]))
      ∧ (∀ (status1 status2 : Nat) (body : Option String),
          updateSpace g { w with Do := fun _ => some { StatusCode := status1, Body := body } }
              addr space
            = updateSpace g
                { w with Do := fun _ => some { StatusCode := status2, Body := body } }
                addr space) := by
  refine ⟨?_, ?_, ?_⟩
  · intro hp
    rw [updateSpace_unbuilt g w addr space hcl hp]
    exact ⟨rfl, rfl, rfl⟩
  · intro u hp
    refine ⟨putRequest g u space, ?_, rfl, rfl, ?_, ?_⟩
    · rw [updateSpace_changed g w addr space u hcl hp]
      cases w.Do (putRequest g u space) <;> rfl
    · intro hdo
      rw [updateSpace_changed g w addr space u hcl hp, hdo]
      exact ⟨rfl, rfl⟩
    · intro r hdo
      rw [updateSpace_changed g w addr space u hcl hp, hdo]
      exact ⟨rfl, rfl⟩
  · intro status1 status2 body
    cases hp : w.ParseURL (addr ++ "/api/spaces/space/" ++ space.ID) with
    | none =>
      have h1 := updateSpace_unbuilt g
        { w with Do := fun _ => some { StatusCode := status1, Body := body } } addr space hcl hp
      have h2 := updateSpace_unbuilt g
        { w with Do := fun _ => some { StatusCode := status2, Body := body } } addr space hcl hp
      rw [h1, h2]
    | some u =>
      have h1 := updateSpace_changed g
        { w with Do := fun _ => some { StatusCode := status1, Body := body } } addr space u
        hcl hp
      have h2 := updateSpace_changed g
        { w with Do := fun _ => some { StatusCode := status2, Body := body } } addr space u
        hcl hp
      rw [h1, h2]

/-- Witness of C9 amended: space "a" of the scenario, desired list
`["y", "z"]`. -/
theorem C9_abort_causes_and_status_witness :
    (demoWorld.ParseURL ("http://k" ++ "/api/spaces/space/" ++ (demoSpace ["x"]).ID) = none →
        (updateSpace (demoGlobals ["y", "z"] []) demoWorld "http://k"
            (demoSpace ["x"])).fatal = true
          ∧ (updateSpace (demoGlobals ["y", "z"] []) demoWorld "http://k"
              (demoSpace ["x"])).writes = []
          ∧ (updateSpace (demoGlobals ["y", "z"] []) demoWorld "http://k"
              (demoSpace ["x"])).sent = [])
      ∧ (∀ u, demoWorld.ParseURL ("http://k" ++ "/api/spaces/space/" ++ (demoSpace ["x"]).ID)
            = some u →
          ∃ req, (updateSpace (demoGlobals ["y", "z"] []) demoWorld "http://k"
                    (demoSpace ["x"])).writes = [req]
            ∧ req.Method = "PUT" ∧ req.URL = u
            ∧ (demoWorld.Do req = none →
                (updateSpace (demoGlobals ["y", "z"] []) demoWorld "http://k"
                    (demoSpace ["x"])).fatal = true
                  ∧ (updateSpace (demoGlobals ["y", "z"] []) demoWorld "http://k"
                      (demoSpace ["x"])).sent = [])
            ∧ (∀ r, demoWorld.Do req = some r →
                (updateSpace (demoGlobals ["y", "z"] []) demoWorld "http://k"
                    (demoSpace ["x"])).fatal = false
                  ∧ (updateSpace (demoGlobals ["y", "z"] []) demoWorld "http://k"
                      (demoSpace ["x"])).sent
                    = [{ Space := demoSpace ["x"],
                         Changelog := diff.Diff (demoGlobals ["y", "z"] []).disabledFeatures
                           (demoSpace ["x"]).DisabledFeatures }]))
      ∧ (∀ (status1 status2 : Nat) (body : Option String),
          updateSpace (demoGlobals ["y", "z"] [])
              { demoWorld with Do := fun _ => some { StatusCode := status1, Body := body } }
              "http://k" (demoSpace ["x"])
            = updateSpace (demoGlobals ["y", "z"] [])
                { demoWorld with Do := fun _ => some { StatusCode := status2, Body := body } }
                "http://k" (demoSpace ["x"])) :=
  C9_abort_causes_and_status (demoGlobals ["y", "z"] []) demoWorld "http://k"
    (demoSpace ["x"]) (by decide)

/-- C10, as stated, fails: with an empty desired list and the current list
`["x"]`, a space whose identifier holds a line feed gets no write at all:
`http.NewRequest` rejects the URL and the run ends at line 73. -/
theorem C10_counterexample_unbuilt_request :
    (demoGlobals [] []).disabledFeatures = []
      ∧ ({ demoSpace ["x"] with ID := "a\nb" } : Space).DisabledFeatures ≠ []
      ∧ (updateSpace (demoGlobals [] []) demoWorld "http://k"
          { demoSpace ["x"] with ID := "a\nb" }).writes = []
      ∧ (updateSpace (demoGlobals [] []) demoWorld "http://k"
          { demoSpace ["x"] with ID := "a\nb" }).fatal = true := by
  decide

/-- C10, amended: every request that `updateSpace` hands to the client has a
body with a member "disabledFeatures" if and only if the desired list is
non-empty; and when the desired list is empty, the current list is not, and
`http.NewRequest` accepts the URL, exactly one request is handed over and its
body has no such member. -/
theorem C10_omitempty_disabledFeatures (g : Globals) (w : World) (addr : String)
    (space : Space) :
    (∀ req ∈ (updateSpace g w addr space).writes,
        (req.Body.hasKey "disabledFeatures" = true ↔ g.disabledFeatures ≠ []))
      ∧ (g.disabledFeatures = [] → space.DisabledFeatures ≠ [] →
          ∀ u, w.ParseURL (addr ++ "/api/spaces/space/" ++ space.ID) = some u →
          ∃ req, (updateSpace g w addr space).writes = [req]
            ∧ req.Body.hasKey "disabledFeatures" = false) := by
  have hkey : ∀ u, ((putRequest g u space).Body.hasKey "disabledFeatures" = true
      ↔ g.disabledFeatures ≠ []) := fun _ => hasKey_Marshal _
  constructor
  · intro req hreq
    by_cases h : diff.Diff g.disabledFeatures space.DisabledFeatures = []
    · rw [updateSpace_same g w addr space h] at hreq
      simp at hreq
    · cases hp : w.ParseURL (addr ++ "/api/spaces/space/" ++ space.ID) with
      | none =>
        rw [updateSpace_unbuilt g w addr space h hp] at hreq
        simp at hreq
      | some u =>
        rw [updateSpace_changed g w addr space u h hp] at hreq
        have hreq1 : req = putRequest g u space := by
          cases hdo : w.Do (putRequest g u space) <;> rw [hdo] at hreq <;> simpa using hreq
        rw [hreq1]
        exact hkey u
  · intro hd hs u hurl
    have hne : diff.Diff g.disabledFeatures space.DisabledFeatures ≠ [] := by
      intro h
      have hp := (diff.Diff_eq_nil_iff_perm _ _).1 h
      rw [hd] at hp
      exact hs (List.Perm.nil_eq hp).symm
    refine ⟨putRequest g u space, ?_, ?_⟩
    · rw [updateSpace_changed g w addr space u hne hurl]
      cases w.Do (putRequest g u space) <;> rfl
    · cases hb : (putRequest g u space).Body.hasKey "disabledFeatures" with
      | false => rfl
      | true => exact absurd hd ((hkey u).1 hb)

/-- Witness of C10 amended: an empty desired list against the current list
`["x"]`. -/
theorem C10_omitempty_disabledFeatures_witness :
    (∀ req ∈ (updateSpace (demoGlobals [] []) demoWorld "http://k" (demoSpace ["x"])).writes,
        (req.Body.hasKey "disabledFeatures" = true ↔ (demoGlobals [] []).disabledFeatures ≠ []))
      ∧ ∃ req, (updateSpace (demoGlobals [] []) demoWorld "http://k"
                  (demoSpace ["x"])).writes = [req]
          ∧ req.Body.hasKey "disabledFeatures" = false :=
  ⟨(C10_omitempty_disabledFeatures (demoGlobals [] []) demoWorld "http://k"
      (demoSpace ["x"])).1,
   (C10_omitempty_disabledFeatures (demoGlobals [] []) demoWorld "http://k"
      (demoSpace ["x"])).2 rfl (by decide) "http://k/api/spaces/space/a" (by decide)⟩

end Kibana
